import Mathlib

/-!
Verification development for the facil.io cluster / pub-sub core
(`src/lib/facil/core/facil_cluster.c`). The definitions below are shallow
embeddings of the C functions of that file: byte buffers are `List Nat`
(one entry per `uint8_t`), machine integers are `Nat`/`Int` with explicit
bounds where overflow matters, heap objects are records, and the observable
side effects (engine hooks, frames written to the cluster socket, user
callbacks) are explicit event lists. Definitions come first, all theorems
follow at the end of the file.
-/

namespace Facil

/-! ## Wire format: `cluster_uint2str` / `cluster_str2uint32` -/

/-- Big-endian four byte encoding of a 32-bit value, as written by
`cluster_uint2str` (little-endian host branch of the C source). -/
def u32be (n : Nat) : List Nat :=
  [n / 16777216 % 256, n / 65536 % 256, n / 256 % 256, n % 256]

/-- Big-endian 32-bit read of the first four buffered bytes, as in
`cluster_str2uint32`. Missing bytes read as `0` (the C code never reads
past the buffered length at these call sites). -/
def readU32BE (b : List Nat) : Nat :=
  b.getD 0 0 * 16777216 + b.getD 1 0 * 65536 + b.getD 2 0 * 256 + b.getD 3 0

/-- Message values handed to the `handler` callback of a `cluster_pr_s`
connection when a frame is dispatched (type, filter, channel bytes,
payload bytes). -/
structure ClusterMsg where
  mtype : Nat
  mfilter : Nat
  channel : List Nat
  msg : List Nat
deriving DecidableEq

/-- `cluster_wrap_message`: the exact byte string written to the stream
socket for one frame — a 16 byte big-endian header (channel length,
payload length, type, filter) followed by the channel bytes and the
payload bytes. -/
def cluster_wrap_message (ch msgd : List Nat) (ty fl : Nat) : List Nat :=
  u32be ch.length ++ u32be msgd.length ++ u32be ty ++ u32be fl ++ ch ++ msgd

/-- The byte string the sender produces for a `ClusterMsg`. -/
def encodeMsg (m : ClusterMsg) : List Nat :=
  cluster_wrap_message m.channel m.msg m.mtype m.mfilter

/-- A frame the sender can actually emit and the receiver can accept:
lengths under the framing limits, type and filter within 32 bits. -/
def validClusterMsg (m : ClusterMsg) : Prop :=
  m.channel.length < 16777216 ∧ m.msg.length < 67108864 ∧
    m.mtype < 4294967296 ∧ m.mfilter < 4294967296

instance (m : ClusterMsg) : Decidable (validClusterMsg m) := by
  unfold validClusterMsg
  infer_instance

/-! ## The frame receiver: the read loop of `cluster_on_data`

The per-connection parse state of `cluster_pr_s` is `(ClusterPr, residual)`:
the accumulated channel / payload byte buffers, the still-expected byte
counts `exp_channel` / `exp_msg`, the current header fields, and the
unconsumed tail of the 16 KiB read buffer (which the C code `memmove`s to
the front after each read). The fixed buffer capacity is not modelled as a
hard bound: the residual left by the loop is always shorter than a header
(proved below as quiescence), so every socket read fits. -/

/-- Parse state of `cluster_pr_s`: accumulated channel / message bytes,
remaining expected byte counts, current header type and filter. -/
structure ClusterPr where
  channel : List Nat
  msg : List Nat
  exp_channel : Nat
  exp_msg : Nat
  mtype : Nat
  mfilter : Nat
deriving DecidableEq

/-- Result of one pass through the body of the `do … while` loop of
`cluster_on_data`: `fatal` models the `exit(1)` on oversized headers,
`brk` the `break` paths (with the unconsumed residual bytes), and `cont`
one full frame dispatch followed by another loop iteration. -/
inductive StepRes where
  | fatal
  | brk (st : ClusterPr) (residual : List Nat)
  | cont (st : ClusterPr) (buf : List Nat) (out : ClusterMsg)
deriving DecidableEq

/-- Payload phase of the loop body (`if (c->exp_msg) …` followed by the
dispatch `c->handler(c)` and the buffer resets). -/
def step_msg (st : ClusterPr) (buf : List Nat) : StepRes :=
  if st.exp_msg = 0 then
    .cont { st with channel := [], msg := [] } buf ⟨st.mtype, st.mfilter, st.channel, st.msg⟩
  else if buf.length < st.exp_msg then
    .brk { st with msg := st.msg ++ buf, exp_msg := st.exp_msg - buf.length } []
  else
    .cont { st with channel := [], msg := [], exp_msg := 0 } (buf.drop st.exp_msg)
      ⟨st.mtype, st.mfilter, st.channel, st.msg ++ buf.take st.exp_msg⟩

/-- Channel phase of the loop body (`if (c->exp_channel) …`). -/
def step_channel (st : ClusterPr) (buf : List Nat) : StepRes :=
  if st.exp_channel = 0 then
    step_msg st buf
  else if buf.length < st.exp_channel then
    .brk { st with channel := st.channel ++ buf, exp_channel := st.exp_channel - buf.length } []
  else
    step_msg { st with channel := st.channel ++ buf.take st.exp_channel, exp_channel := 0 }
      (buf.drop st.exp_channel)

/-- One pass through the loop body of `cluster_on_data`: header parse
(with the 16 MiB / 64 MiB fatal overflow checks of the C source), then
the channel and payload phases. -/
def cluster_step (st : ClusterPr) (buf : List Nat) : StepRes :=
  if st.exp_channel = 0 ∧ st.exp_msg = 0 then
    if buf.length < 16 then
      .brk st buf
    else if 16777216 ≤ readU32BE buf then
      .fatal
    else if 67108864 ≤ readU32BE (buf.drop 4) then
      .fatal
    else
      step_channel
        { st with exp_channel := readU32BE buf, exp_msg := readU32BE (buf.drop 4),
                  mtype := readU32BE (buf.drop 8), mfilter := readU32BE (buf.drop 12) }
        (buf.drop 16)
  else
    step_channel st buf

/-- The full `do … while (c->length > i)` loop of `cluster_on_data`,
run on the buffered bytes: returns the updated parse state, the
unconsumed residual, and the dispatched messages in order. `none` models
process termination through the fatal overflow checks. -/
def cluster_consume (st : ClusterPr) (buf : List Nat) :
    Option (ClusterPr × List Nat × List ClusterMsg) :=
  match h : cluster_step st buf with
  | .fatal => none
  | .brk st' r => some (st', r, [])
  | .cont st' buf' m =>
    match cluster_consume st' buf' with
    | none => none
    | some (st'', r, out) => some (st'', r, m :: out)
termination_by buf.length
decreasing_by
  have hmsg : ∀ (s : ClusterPr) (b : List Nat) (s2 : ClusterPr) (b2 : List Nat)
      (mm : ClusterMsg), step_msg s b = .cont s2 b2 mm →
      b2.length ≤ b.length ∧ (s.exp_msg ≠ 0 → b2.length < b.length) := by
    intro s b s2 b2 mm hh
    unfold step_msg at hh
    split_ifs at hh with e1 e2
    all_goals try exact StepRes.noConfusion hh
    all_goals injection hh with hst hbuf hm
    all_goals subst hbuf
    all_goals try simp only [List.length_drop]
    all_goals exact ⟨by omega, fun hc => by omega⟩
  have hch : ∀ (s : ClusterPr) (b : List Nat) (s2 : ClusterPr) (b2 : List Nat)
      (mm : ClusterMsg), step_channel s b = .cont s2 b2 mm →
      b2.length ≤ b.length ∧ ((s.exp_channel ≠ 0 ∨ s.exp_msg ≠ 0) → b2.length < b.length) := by
    intro s b s2 b2 mm hh
    unfold step_channel at hh
    split_ifs at hh with e1 e2
    all_goals try exact StepRes.noConfusion hh
    all_goals obtain ⟨hle, hlt⟩ := hmsg _ _ _ _ _ hh
    all_goals try simp only [List.length_drop] at hle hlt ⊢
    all_goals exact ⟨by omega, fun hc => by omega⟩
  unfold cluster_step at h
  split_ifs at h with h0 h1 h2 h3
  all_goals try exact StepRes.noConfusion h
  all_goals obtain ⟨hle, hlt⟩ := hch _ _ _ _ _ h
  all_goals try simp only [List.length_drop] at hle hlt ⊢
  all_goals omega

/-- One invocation of `cluster_on_data`: a socket read appends `chunk`
to the residual buffer and runs the loop; a read that returns no data
returns immediately (`if (i <= 0) return`). -/
def cluster_on_data (conn : ClusterPr × List Nat) (chunk : List Nat) :
    Option ((ClusterPr × List Nat) × List ClusterMsg) :=
  if chunk = [] then some (conn, [])
  else
    match cluster_consume conn.1 (conn.2 ++ chunk) with
    | none => none
    | some (st, r, out) => some ((st, r), out)

/-- Successive socket reads delivered to one connection, with all
dispatched messages concatenated in order. -/
def cluster_feed (conn : ClusterPr × List Nat) :
    List (List Nat) → Option ((ClusterPr × List Nat) × List ClusterMsg)
  | [] => some (conn, [])
  | c :: cs =>
    match cluster_on_data conn c with
    | none => none
    | some (conn', out) =>
      match cluster_feed conn' cs with
      | none => none
      | some (conn'', out') => some (conn'', out ++ out')

/-- Fresh connection state: `fio_mmap` zeroes the protocol object, so all
counters start at zero and the buffers empty. -/
def cluster_pr_init : ClusterPr := ⟨[], [], 0, 0, 0, 0⟩

/-- Composition helper: continue a finished loop run with more bytes. -/
def consumeThen (o : Option (ClusterPr × List Nat × List ClusterMsg)) (b2 : List Nat) :
    Option (ClusterPr × List Nat × List ClusterMsg) :=
  match o with
  | none => none
  | some (st, r, out) =>
    match cluster_consume st (r ++ b2) with
    | none => none
    | some (st', r', out') => some (st', r', out ++ out')

/-- A connection state on which the loop body makes no progress without
new bytes — the shape `cluster_on_data` always leaves behind. -/
def quiescentConn (conn : ClusterPr × List Nat) : Prop :=
  cluster_step conn.1 conn.2 = .brk conn.1 conn.2

/-! ## The glob matcher: `facil_glob_match`

The C function walks the channel bytes (`while (ch.len)`), reading one
pattern token per iteration, with a single-level backtrack (`back_pat`,
`back_str`). Where the C code reads past the end of the pattern buffer
(possible for malformed patterns such as an unterminated class — undefined
behavior in C), the model reads a `0` byte or treats the comparison as a
mismatch; no theorem below depends on those inputs. -/

/-- Character-class scan: the `do … while ((a = *cls++) != ']')` loop of
the `[` case. `a` is the current span opener, `cls` the bytes after it,
`acc` the accumulated membership bit. Returns the membership bit and the
number of bytes consumed from `cls` (the remainder of the pattern starts
that many bytes in). -/
def glob_class (c a : Nat) (cls : List Nat) (acc : Bool) : Bool × Nat :=
  match cls with
  | x :: y :: rest =>
    if x = 45 ∧ y ≠ 93 then
      let acc2 := acc || decide (min a y ≤ c ∧ c ≤ max a y)
      match rest with
      | [] => (acc2, 2)
      | a2 :: rest2 =>
        if a2 = 93 then (acc2, 3)
        else
          let r := glob_class c a2 rest2 acc2
          (r.1, r.2 + 3)
    else
      let acc2 := acc || decide (a ≤ c ∧ c ≤ a)
      if x = 93 then (acc2, 1)
      else
        let r := glob_class c x (y :: rest) acc2
        (r.1, r.2 + 1)
  | [x] =>
    let acc2 := acc || decide (a ≤ c ∧ c ≤ a)
    if x = 93 then (acc2, 1)
    else
      let r := glob_class c x [] acc2
      (r.1, r.2 + 1)
  | [] => (acc || decide (a ≤ c ∧ c ≤ a), 0)
termination_by cls.length
decreasing_by
  all_goals simp only [List.length_cons]
  all_goals omega

/-- Main loop of `facil_glob_match`. `pat`/`ch` are the unread pattern and
channel bytes; `backPat`/`backStr` are the stored backtrack position (the
pattern after the last `*` and the channel position it restarts from),
live only when `hasBack` is set (`back_pat != NULL`). -/
def glob_loop (pat ch backPat backStr : List Nat) (hasBack : Bool) : Bool :=
  match ch with
  | [] => pat.isEmpty
  | c :: ch2 =>
    match pat with
    | [] =>
      if hasBack then glob_loop backPat backStr.tail backPat backStr.tail true else false
    | d :: pat2 =>
      if d = 63 then
        glob_loop pat2 ch2 backPat backStr hasBack
      else if d = 42 then
        if pat2 = [] then true
        else glob_loop pat2 (c :: ch2) pat2 (c :: ch2) true
      else if d = 91 then
        if pat2.headD 0 = 94 then
          let r := glob_class c (pat2.tail.headD 0) pat2.tail.tail false
          if r.1 then
            (if hasBack then glob_loop backPat backStr.tail backPat backStr.tail true
             else false)
          else glob_loop (pat2.tail.tail.drop r.2) ch2 backPat backStr hasBack
        else
          let r := glob_class c (pat2.headD 0) pat2.tail false
          if r.1 then glob_loop (pat2.tail.drop r.2) ch2 backPat backStr hasBack
          else
            (if hasBack then glob_loop backPat backStr.tail backPat backStr.tail true
             else false)
      else if d = 92 then
        if c = pat2.headD 0 then glob_loop pat2.tail ch2 backPat backStr hasBack
        else if hasBack then glob_loop backPat backStr.tail backPat backStr.tail true
        else false
      else
        if c = d then glob_loop pat2 ch2 backPat backStr hasBack
        else if hasBack then glob_loop backPat backStr.tail backPat backStr.tail true
        else false
termination_by (max backStr.length ch.length, pat.length + ch.length)
decreasing_by
  all_goals
    first
      | exact Prod.Lex.left _ _ (by
          simp only [List.length_tail, List.length_cons]
          omega)
      | (have hfirst : ∀ (a' b' a b : Nat), a' ≤ a → b' < b →
            Prod.Lex (fun x y : Nat => x < y) (fun x y : Nat => x < y) (a', b') (a, b) := by
          intro a' b' a b ha hb
          rcases Nat.eq_or_lt_of_le ha with heq | hlt
          · subst heq
            exact Prod.Lex.right _ hb
          · exact Prod.Lex.left _ _ hlt
         exact hfirst _ _ _ _
           (by simp only [List.length_cons, List.length_tail]; omega)
           (by simp only [List.length_cons, List.length_tail, List.length_drop]; omega))

/-- `facil_glob_match`: pattern against channel, both opaque byte strings.
Initially `back_pat = NULL` and `back_str` points at the whole channel. -/
def facil_glob_match (pattern channel : List Nat) : Bool :=
  glob_loop pattern channel [] channel false

/-! ## Message preparation and scope fan-out: `prepare_message` and the
`publish_msg2…` family

`FIOBJ` values are modelled by the cases the dispatcher distinguishes:
byte strings and everything else (represented by numbers); `channel` and
`msg` are optional (`FIOBJ_INVALID`). The observable behavior of a publish
is its event list: frames sent up to the root (`cluster_client_sender`),
frames broadcast to the children (`cluster_server_sender`), and local
dispatches (`publish2process`). -/

/-- Subset of the FIOBJ dynamic types relevant to the dispatcher: byte
strings versus any non-string object (numbers stand in for those). -/
inductive Fiobj where
  | str (s : List Nat)
  | num (n : Int)
deriving DecidableEq

/-- `FIOBJ_TYPE_IS(o, FIOBJ_T_STRING)`. -/
def Fiobj.isString : Fiobj → Bool
  | .str _ => true
  | _ => false

/-- Decimal digits of a natural number, as bytes. -/
def natDigits (n : Nat) : List Nat :=
  (Nat.toDigits 10 n).map Char.toNat

/-- Modelled from the spec: `fiobj_obj2json` (the FIOBJ JSON serializer is
not under `src/`); produces the canonical textual JSON form of an object —
strings are quoted, other objects serialized to text. -/
def obj2json : Fiobj → List Nat
  | .str s => 34 :: (s ++ [34])
  | .num n => if n < 0 then 45 :: natDigits n.natAbs else natDigits n.natAbs

/-- The test `(!o || FIOBJ_TYPE_IS(o, FIOBJ_T_STRING))` of
`prepare_message`: absent or a byte string. -/
def strOrNone : Option Fiobj → Bool
  | none => true
  | some v => v.isString

/-- The envelope produced by `prepare_message`: frame type (0 = FORWARD,
1 = JSON), filter, and the (possibly serialized) channel and payload. -/
structure PreparedMsg where
  mtype : Nat
  mfilter : Int
  channel : Option Fiobj
  msg : Option Fiobj
deriving DecidableEq

/-- `prepare_message`: mark FORWARD when both channel and payload are
absent-or-string; otherwise mark JSON and replace each present part by its
JSON serialization. -/
def prepare_message (fl : Int) (ch msg : Option Fiobj) : PreparedMsg :=
  if strOrNone ch && strOrNone msg then
    ⟨0, fl, ch, msg⟩
  else
    ⟨1, fl, ch.map (fun v => .str (obj2json v)), msg.map (fun v => .str (obj2json v))⟩

/-- Observable publish effects: a frame written upstream to the root
(`cluster_client_sender`), a frame broadcast to every child
(`cluster_server_sender`), or a local dispatch (`publish2process`). -/
inductive PubEv where
  | frameUp (ty : Nat) (fl : Int) (ch msg : Option Fiobj)
  | frameDown (ty : Nat) (fl : Int) (ch msg : Option Fiobj)
  | localDispatch (ty : Nat) (fl : Int) (ch msg : Option Fiobj)
deriving DecidableEq

/-- `facil_send2cluster` on a running reactor: a worker (connected client
socket) sends upstream, the root broadcasts to its children. -/
def facil_send2cluster (isRoot : Bool) (ty : Nat) (fl : Int) (ch msg : Option Fiobj) :
    List PubEv :=
  if isRoot then [.frameDown ty fl ch msg] else [.frameUp ty fl ch msg]

/-- `publish2process` as an event (the local fan-out into the collections). -/
def publish2process_ev (ty : Nat) (fl : Int) (ch msg : Option Fiobj) : List PubEv :=
  [.localDispatch ty fl ch msg]

/-- `publish_msg2all` (CLUSTER scope): prepare once, send to the peer link
and dispatch locally. -/
def publish_msg2all (isRoot : Bool) (fl : Int) (ch msg : Option Fiobj) : List PubEv :=
  let m := prepare_message fl ch msg
  facil_send2cluster isRoot m.mtype m.mfilter m.channel m.msg ++
    publish2process_ev m.mtype m.mfilter m.channel m.msg

/-- `publish_msg2local` (PROCESS scope): prepare once, dispatch locally only. -/
def publish_msg2local (fl : Int) (ch msg : Option Fiobj) : List PubEv :=
  let m := prepare_message fl ch msg
  publish2process_ev m.mtype m.mfilter m.channel m.msg

/-- `publish_msg2cluster` (SIBLINGS scope): prepare once, peer link only. -/
def publish_msg2cluster (isRoot : Bool) (fl : Int) (ch msg : Option Fiobj) : List PubEv :=
  let m := prepare_message fl ch msg
  facil_send2cluster isRoot m.mtype m.mfilter m.channel m.msg

/-- `publish_msg2root` (ROOT scope): in the root behave as PROCESS;
in a worker retype the envelope to ROOT (2) or ROOT_JSON (3) and send it
upstream only. -/
def publish_msg2root (isRoot : Bool) (fl : Int) (ch msg : Option Fiobj) : List PubEv :=
  if isRoot then publish_msg2local fl ch msg
  else
    let m := prepare_message fl ch msg
    facil_send2cluster false (if m.mtype = 1 then 3 else 2) m.mfilter m.channel m.msg

/-- Frame-dispatch arms of `cluster_server_handler` (the root side):
FORWARD (0) / JSON (1) frames are broadcast verbatim to every child and
dispatched locally; ROOT_JSON (3) is retyped to JSON and dispatched
locally only; ROOT (2) is dispatched locally only. The SUB/UNSUB arms
maintain the per-link mock-subscription tables and emit neither frames
nor local dispatches; SHUTDOWN/ERROR/PING are ignored. -/
def cluster_server_handler (ty : Nat) (fl : Int) (ch msg : Option Fiobj) : List PubEv :=
  if ty = 0 ∨ ty = 1 then
    .frameDown ty fl ch msg :: publish2process_ev ty fl ch msg
  else if ty = 3 then publish2process_ev 1 fl ch msg
  else if ty = 2 then publish2process_ev 2 fl ch msg
  else []

/-! ## The postoffice: subscriptions, channels, collections

Channel identities (`FIOBJ` keys) are numbers (filters) or byte strings;
callbacks and match functions are opaque tokens (`Nat`, `Option Nat`).
The subscription heap is a table keyed by allocation order (`nextSub`),
channels live in association lists standing for the `fio_hash_s`
collections (`fio_hash_insert` of `NULL` removes the binding; compaction
does not change the association content and is not modelled). Observable
effects are events: engine `subscribe`/`unsubscribe` hooks, frames from
`inform_root_about_channel` (sent only when the worker's client socket is
set), and `on_unsubscribe` invocations. -/

/-- A `FIOBJ` channel identity: a number (filters) or a byte string. -/
inductive FioId where
  | num (n : Int)
  | str (s : List Nat)
deriving DecidableEq

/-- Which of the three postoffice collections a channel lives in. -/
inductive CollTag where
  | filters
  | pubsub
  | patterns
deriving DecidableEq

/-- A `subscription_s`: parent channel reference, callbacks, user data and
the reference count (initialized to 1 on creation). -/
structure SubRec where
  parentColl : CollTag
  parentId : FioId
  on_message : Nat
  on_unsubscribe : Option Nat
  udata1 : Nat
  udata2 : Nat
  ref : Nat
deriving DecidableEq

/-- A `channel_s` (or `pattern_s` when `match_fn` is set): identity, the
subscription list in insertion order, and the pattern match function. -/
structure ChannelRec where
  id : FioId
  subs : List Nat
  match_fn : Option Nat
deriving DecidableEq

/-- Events observable outside the postoffice state. -/
inductive Ev where
  | engineSub (e : Nat) (id : FioId) (m : Option Nat)
  | engineUnsub (e : Nat) (id : FioId) (m : Option Nat)
  | rootFrame (ty : Nat) (id : FioId)
  | onUnsub (cb : Nat) (u1 u2 : Nat)
deriving DecidableEq

/-- The global `postoffice` plus the pieces of `cluster_data` the
subscription paths read (`client` being set marks a connected worker). -/
structure Postoffice where
  filters : List (FioId × ChannelRec)
  pubsub : List (FioId × ChannelRec)
  patterns : List (FioId × ChannelRec)
  engines : List Nat
  subs : List (Nat × SubRec)
  nextSub : Nat
  clientSet : Bool
deriving DecidableEq

/-- `fio_hash_find` on a collection. -/
def collFind : List (FioId × ChannelRec) → FioId → Option ChannelRec
  | [], _ => none
  | p :: rest, k => if p.1 = k then some p.2 else collFind rest k

/-- In-place mutation of the channel object a collection binding points at. -/
def collUpdate : List (FioId × ChannelRec) → FioId → (ChannelRec → ChannelRec) →
    List (FioId × ChannelRec)
  | [], _, _ => []
  | p :: rest, k, f => (if p.1 = k then (p.1, f p.2) else p) :: collUpdate rest k f

/-- `fio_hash_insert(h, key, NULL)`: drop the binding. -/
def collRemove (l : List (FioId × ChannelRec)) (k : FioId) : List (FioId × ChannelRec) :=
  l.filter (fun p => decide ¬(p.1 = k))

/-- Lookup in the subscription heap. -/
def subsFind : List (Nat × SubRec) → Nat → Option SubRec
  | [], _ => none
  | p :: rest, k => if p.1 = k then some p.2 else subsFind rest k

/-- In-place mutation of one subscription object. -/
def subsUpdate (l : List (Nat × SubRec)) (k : Nat) (f : SubRec → SubRec) :
    List (Nat × SubRec) :=
  l.map (fun p => if p.1 = k then (p.1, f p.2) else p)

/-- Freeing one subscription object. -/
def subsRemove (l : List (Nat × SubRec)) (k : Nat) : List (Nat × SubRec) :=
  l.filter (fun p => decide ¬(p.1 = k))

/-- Collection selector. -/
def getColl (po : Postoffice) : CollTag → List (FioId × ChannelRec)
  | .filters => po.filters
  | .pubsub => po.pubsub
  | .patterns => po.patterns

/-- Collection writer. -/
def setColl (po : Postoffice) : CollTag → List (FioId × ChannelRec) → Postoffice
  | .filters, l => { po with filters := l }
  | .pubsub, l => { po with pubsub := l }
  | .patterns, l => { po with patterns := l }

/-- `subscribe_args_s`. -/
structure SubscribeArgs where
  filter : Int
  channel : Option FioId
  match_fn : Option Nat
  on_message : Option Nat
  on_unsubscribe : Option Nat
  udata1 : Nat
  udata2 : Nat
deriving DecidableEq

/-- `inform_root_about_channel`: when the worker's client link is set,
frame the channel identity as PATTERN_SUB (6) / PATTERN_UNSUB (7) when a
match function is present, else PUBSUB_SUB (4) / PUBSUB_UNSUB (5), and
write it upstream. A root process (no client link) sends nothing. -/
def inform_root_about_channel (po : Postoffice) (id : FioId) (m : Option Nat)
    (add : Bool) : List Ev :=
  if ¬po.clientSet then []
  else
    match m with
    | some _ => [.rootFrame (if add then 6 else 7) id]
    | none => [.rootFrame (if add then 4 else 5) id]

/-- `pubsub_on_channel_create`: every attached engine's `subscribe` hook,
then the upstream frame. -/
def pubsub_on_channel_create (po : Postoffice) (id : FioId) (m : Option Nat) : List Ev :=
  po.engines.map (fun e => Ev.engineSub e id m) ++ inform_root_about_channel po id m true

/-- `pubsub_on_channel_destroy`: every attached engine's `unsubscribe`
hook, then the upstream frame. -/
def pubsub_on_channel_destroy (po : Postoffice) (id : FioId) (m : Option Nat) : List Ev :=
  po.engines.map (fun e => Ev.engineUnsub e id m) ++ inform_root_about_channel po id m false

/-- Channel seek / lazy creation and subscription push of
`subscription_create`, after the target collection (`tag`) and channel
key have been chosen. On a miss the channel is allocated (as a pattern
object whenever a match function was supplied — regardless of the
collection) and inserted, with `pubsub_on_channel_create` fired only for
non-filter subscriptions. -/
def subscription_create_in (po : Postoffice) (args : SubscribeArgs) (tag : CollTag)
    (key : FioId) : Postoffice × Option Nat × List Ev :=
  let sid := po.nextSub
  let s : SubRec :=
    ⟨tag, key, args.on_message.getD 0, args.on_unsubscribe, args.udata1, args.udata2, 1⟩
  match collFind (getColl po tag) key with
  | some _ =>
    let po2 := setColl po tag
      (collUpdate (getColl po tag) key (fun c => { c with subs := c.subs ++ [sid] }))
    ({ po2 with subs := (sid, s) :: po2.subs, nextSub := sid + 1 }, some sid, [])
  | none =>
    let ch : ChannelRec := ⟨key, [sid], args.match_fn⟩
    let evs := if args.filter = 0 then pubsub_on_channel_create po key args.match_fn else []
    let po2 := setColl po tag (getColl po tag ++ [(key, ch)])
    ({ po2 with subs := (sid, s) :: po2.subs, nextSub := sid + 1 }, some sid, evs)

/-- `subscription_create`: argument validation (failing runs
`on_unsubscribe` immediately and returns NULL), collection choice
(nonzero filter → `filters` keyed by the number; else `patterns` when a
match function is given, `pubsub` otherwise), lazy channel creation
(notifying engines and the root only for non-filter subscriptions —
`if (!args.filter) pubsub_on_channel_create(…)`), and the push of the new
subscription (ref = 1) onto the channel's list. The hash compaction the C
code may run under the lock does not change the association content. -/
def subscription_create (po : Postoffice) (args : SubscribeArgs) :
    Postoffice × Option Nat × List Ev :=
  if args.on_message = none ∨ (args.channel = none ∧ args.filter = 0) then
    (po, none,
      match args.on_unsubscribe with
      | some cb => [.onUnsub cb args.udata1 args.udata2]
      | none => [])
  else
    subscription_create_in po args
      (if args.filter ≠ 0 then .filters
       else if args.match_fn.isSome then .patterns else .pubsub)
      (if args.filter ≠ 0 then .num args.filter else args.channel.getD (.str []))

/-- `subscription_free`: drop one reference; at zero run `on_unsubscribe`
(if any) and free the object. -/
def subscription_free (po : Postoffice) (sid : Nat) : Postoffice × List Ev :=
  match subsFind po.subs sid with
  | none => (po, [])
  | some s =>
    if s.ref - 1 ≠ 0 then
      ({ po with subs := subsUpdate po.subs sid (fun t => { t with ref := t.ref - 1 }) }, [])
    else
      ({ po with subs := subsRemove po.subs sid },
        match s.on_unsubscribe with
        | some cb => [.onUnsub cb s.udata1 s.udata2]
        | none => [])

/-- `channel_destroy`: if the subscription list is empty, remove the
channel from its collection and call `pubsub_on_channel_destroy` —
unconditionally, for every collection, passing the match function only
for channels living in the patterns collection. -/
def channel_destroy (po : Postoffice) (tag : CollTag) (key : FioId) : Postoffice × List Ev :=
  match collFind (getColl po tag) key with
  | none => (po, [])
  | some c =>
    if c.subs ≠ [] then (po, [])
    else
      let po2 := setColl po tag (collRemove (getColl po tag) key)
      (po2, pubsub_on_channel_destroy po2 key
        (if tag = CollTag.patterns then c.match_fn else none))

/-- `subscription_destroy` (the body of `facil_unsubscribe`, with the
deferred-retry on lock contention linearized away): unlink the node from
the parent channel, destroy the channel when its list drained, then drop
the subscription's external reference. -/
def subscription_destroy (po : Postoffice) (sid : Nat) : Postoffice × List Ev :=
  match subsFind po.subs sid with
  | none => (po, [])
  | some s =>
    let po1 := setColl po s.parentColl
      (collUpdate (getColl po s.parentColl) s.parentId
        (fun c => { c with subs := c.subs.filter (fun x => decide ¬(x = sid)) }))
    let pe :=
      match collFind (getColl po1 s.parentColl) s.parentId with
      | some c => if c.subs = [] then channel_destroy po1 s.parentColl s.parentId else (po1, [])
      | none => (po1, [])
    let pf := subscription_free pe.1 sid
    (pf.1, pe.2 ++ pf.2)

/-- Fresh postoffice: all collections and registries empty
(static zero initialization of the C globals). -/
def postoffice_init : Postoffice := ⟨[], [], [], [], [], 0, false⟩

/-! ## Reference-count protocol of one subscription

Dispatch takes a reference per scheduled delivery (`subscription_dup` in
`publish2channel`) and every completed delivery releases one
(`subscription_free` at the end of `perform_subscription_callback`);
`unsubscribe` releases the single external reference. A linearized run is
a list of these operations. -/

/-- One reference-count operation on a subscription. -/
inductive RefOp where
  | dup
  | free
deriving DecidableEq

/-- `subscription_dup` / the ref-count part of `subscription_free`. -/
def subscription_ref_step (s : SubRec) (op : RefOp) : SubRec × List Ev :=
  match op with
  | .dup => ({ s with ref := s.ref + 1 }, [])
  | .free =>
    if s.ref - 1 ≠ 0 then ({ s with ref := s.ref - 1 }, [])
    else
      ({ s with ref := 0 },
        match s.on_unsubscribe with
        | some cb => [.onUnsub cb s.udata1 s.udata2]
        | none => [])

/-- A linearized run of reference operations with its emitted events. -/
def runRefOps (s : SubRec) : List RefOp → SubRec × List Ev
  | [] => (s, [])
  | op :: rest =>
    let p := subscription_ref_step s op
    let q := runRefOps p.1 rest
    (q.1, p.2 ++ q.2)

/-- Number of `free` operations in a run. -/
def countFree : List RefOp → Nat
  | [] => 0
  | .free :: r => countFree r + 1
  | .dup :: r => countFree r

/-- Number of `dup` operations in a run. -/
def countDup : List RefOp → Nat
  | [] => 0
  | .dup :: r => countDup r + 1
  | .free :: r => countDup r

/-! ## The metadata producer registry: `facil_message_metadata_set` -/

/-- Modelled from the spec: `fio_ary_remove2` (dynamic array helper, not
under `src/`) removes the producer's entry from the registry array and is
a no-op when the producer is absent; on registries without duplicates
(the only ones reachable from the empty registry) removing the first
occurrence and removing every occurrence coincide. -/
def fio_ary_remove2 : List Nat → Nat → List Nat
  | [], _ => []
  | x :: rest, cb => if x = cb then rest else x :: fio_ary_remove2 rest cb

/-- `facil_message_metadata_set`: always remove the producer, then push it
back when `enable` is set. -/
def facil_message_metadata_set (l : List Nat) (cb : Nat) (enable : Bool) : List Nat :=
  let l2 := fio_ary_remove2 l cb
  if enable then l2 ++ [cb] else l2

/-! ## Theorems: the cluster parser -/

theorem length_u32be (n : Nat) : (u32be n).length = 4 := rfl

theorem readU32BE_u32be_append (n : Nat) (h : n < 4294967296) (rest : List Nat) :
    readU32BE (u32be n ++ rest) = n := by
  simp only [u32be, readU32BE, List.cons_append, List.nil_append, List.getD_cons_zero,
    List.getD_cons_succ]
  omega

theorem step_msg_cont_length {st : ClusterPr} {buf : List Nat} {st' : ClusterPr}
    {buf' : List Nat} {m : ClusterMsg} (h : step_msg st buf = .cont st' buf' m) :
    buf'.length ≤ buf.length ∧ (st.exp_msg ≠ 0 → buf'.length < buf.length) := by
  unfold step_msg at h
  split_ifs at h with h1 h2
  all_goals try exact StepRes.noConfusion h
  all_goals injection h with hst hbuf hm
  all_goals subst hbuf
  all_goals try simp only [List.length_drop]
  all_goals exact ⟨by omega, fun hc => by omega⟩

theorem step_channel_cont_length {st : ClusterPr} {buf : List Nat} {st' : ClusterPr}
    {buf' : List Nat} {m : ClusterMsg} (h : step_channel st buf = .cont st' buf' m) :
    buf'.length ≤ buf.length ∧
      ((st.exp_channel ≠ 0 ∨ st.exp_msg ≠ 0) → buf'.length < buf.length) := by
  unfold step_channel at h
  split_ifs at h with h1 h2
  all_goals try exact StepRes.noConfusion h
  all_goals obtain ⟨hle, hlt⟩ := step_msg_cont_length h
  all_goals try simp only [List.length_drop] at hle hlt ⊢
  all_goals exact ⟨by omega, fun hc => by omega⟩

theorem cluster_step_cont_length {st : ClusterPr} {buf : List Nat} {st' : ClusterPr}
    {buf' : List Nat} {m : ClusterMsg} (h : cluster_step st buf = .cont st' buf' m) :
    buf'.length < buf.length := by
  unfold cluster_step at h
  split_ifs at h with h0 h1 h2 h3
  all_goals try exact StepRes.noConfusion h
  all_goals obtain ⟨hle, hlt⟩ := step_channel_cont_length h
  all_goals try simp only [List.length_drop] at hle hlt ⊢
  all_goals omega

theorem step_msg_brk_shape {st : ClusterPr} {b : List Nat} {st' : ClusterPr} {r : List Nat}
    (h : step_msg st b = .brk st' r) :
    r = [] ∧ st'.exp_msg ≠ 0 ∧ st'.exp_channel = st.exp_channel := by
  unfold step_msg at h
  split_ifs at h with h1 h2
  all_goals try exact StepRes.noConfusion h
  injection h with hst hr
  subst hst hr
  exact ⟨rfl, by show st.exp_msg - b.length ≠ 0; omega, rfl⟩

theorem step_channel_brk_shape {st : ClusterPr} {b : List Nat} {st' : ClusterPr} {r : List Nat}
    (h : step_channel st b = .brk st' r) :
    ¬(st'.exp_channel = 0 ∧ st'.exp_msg = 0) := by
  unfold step_channel at h
  split_ifs at h with h1 h2
  · obtain ⟨-, hm, -⟩ := step_msg_brk_shape h
    exact fun hc => hm hc.2
  · injection h with hst hr
    subst hst
    exact fun hc => by
      have : st.exp_channel - b.length = 0 := hc.1
      omega
  · obtain ⟨-, hm, -⟩ := step_msg_brk_shape h
    exact fun hc => hm hc.2

theorem step_channel_brk_nil {st : ClusterPr} {b : List Nat} {st' : ClusterPr} {r : List Nat}
    (h : step_channel st b = .brk st' r) : r = [] := by
  unfold step_channel at h
  split_ifs at h with h1 h2
  all_goals try exact (step_msg_brk_shape h).1
  injection h with hst hr
  exact hr.symm

/-- Running the loop body on an empty buffer in the middle of a frame
breaks at once without touching the state. -/
theorem step_channel_nil_brk (st : ClusterPr)
    (hnb : ¬(st.exp_channel = 0 ∧ st.exp_msg = 0)) : step_channel st [] = .brk st [] := by
  by_cases hch : st.exp_channel = 0
  · have hm : st.exp_msg ≠ 0 := fun hmm => hnb ⟨hch, hmm⟩
    unfold step_channel step_msg
    rw [if_pos hch, if_neg hm, if_pos (by simpa using Nat.pos_of_ne_zero hm)]
    simp
  · unfold step_channel
    rw [if_neg hch, if_pos (by simpa using Nat.pos_of_ne_zero hch)]
    simp

theorem cluster_step_brk_self {st : ClusterPr} {b : List Nat} {st' : ClusterPr} {r : List Nat}
    (h : cluster_step st b = .brk st' r) : cluster_step st' r = .brk st' r := by
  unfold cluster_step at h
  split_ifs at h with h0 h1 h2 h3
  all_goals try exact StepRes.noConfusion h
  all_goals first
    | (injection h with hst hr
       subst hst hr
       unfold cluster_step
       rw [if_pos h0, if_pos h1])
    | (have hnb := step_channel_brk_shape h
       have hr := step_channel_brk_nil h
       subst hr
       unfold cluster_step
       rw [if_neg hnb]
       exact step_channel_nil_brk st' hnb)

theorem take_append_of_le {e : Nat} {b1 : List Nat} (b2 : List Nat) (h : e ≤ b1.length) :
    (b1 ++ b2).take e = b1.take e := by
  rw [List.take_append_eq_append_take, Nat.sub_eq_zero_of_le h]
  simp

theorem drop_append_of_le {e : Nat} {b1 : List Nat} (b2 : List Nat) (h : e ≤ b1.length) :
    (b1 ++ b2).drop e = b1.drop e ++ b2 := by
  rw [List.drop_append_eq_append_drop, Nat.sub_eq_zero_of_le h]
  simp

theorem take_append_of_ge {e : Nat} {b1 : List Nat} (b2 : List Nat) (h : b1.length ≤ e) :
    (b1 ++ b2).take e = b1 ++ b2.take (e - b1.length) := by
  rw [List.take_append_eq_append_take, List.take_of_length_le h]

theorem drop_append_of_ge {e : Nat} {b1 : List Nat} (b2 : List Nat) (h : b1.length ≤ e) :
    (b1 ++ b2).drop e = b2.drop (e - b1.length) := by
  rw [List.drop_append_eq_append_drop, List.drop_eq_nil_of_le h]
  simp

theorem readU32BE_append_left {b1 : List Nat} (b2 : List Nat) (h : 4 ≤ b1.length) :
    readU32BE (b1 ++ b2) = readU32BE b1 := by
  unfold readU32BE
  have h0 : (0:Nat) < b1.length := by omega
  have h1 : (1:Nat) < b1.length := by omega
  have h2 : (2:Nat) < b1.length := by omega
  have h3 : (3:Nat) < b1.length := by omega
  simp [List.getD, List.getElem?_append, List.getElem_append_left, h0, h1, h2, h3]

theorem step_msg_ne_fatal (st : ClusterPr) (b : List Nat) : step_msg st b ≠ .fatal := by
  unfold step_msg
  split_ifs <;> simp

theorem step_channel_ne_fatal (st : ClusterPr) (b : List Nat) : step_channel st b ≠ .fatal := by
  unfold step_channel
  split_ifs
  all_goals first | exact step_msg_ne_fatal _ _ | simp

theorem step_msg_append_cont {st : ClusterPr} {b1 : List Nat} {st' : ClusterPr}
    {b1' : List Nat} {m : ClusterMsg} (b2 : List Nat) (h : step_msg st b1 = .cont st' b1' m) :
    step_msg st (b1 ++ b2) = .cont st' (b1' ++ b2) m := by
  unfold step_msg at h ⊢
  split_ifs at h with h1 h2
  all_goals try exact StepRes.noConfusion h
  all_goals injection h with hst hb hm
  all_goals subst hst hb hm
  all_goals first
    | rw [if_pos h1]
    | (have hlen : st.exp_msg ≤ b1.length := by omega
       rw [if_neg h1,
         if_neg (show ¬((b1 ++ b2).length < st.exp_msg) by
           simp only [List.length_append]; omega),
         take_append_of_le b2 hlen, drop_append_of_le b2 hlen])

theorem step_msg_append_brk {st : ClusterPr} {b1 : List Nat} {st' : ClusterPr}
    {r : List Nat} (b2 : List Nat) (h : step_msg st b1 = .brk st' r) :
    step_msg st (b1 ++ b2) = step_msg st' (r ++ b2) := by
  unfold step_msg at h
  split_ifs at h with h1 h2
  all_goals try exact StepRes.noConfusion h
  injection h with hst hr
  subst hst hr
  rw [List.nil_append]
  unfold step_msg
  rw [if_neg h1, if_neg (show ¬(st.exp_msg - b1.length = 0) by omega)]
  by_cases hc : b1.length + b2.length < st.exp_msg
  · rw [if_pos (show (b1 ++ b2).length < st.exp_msg by
        simp only [List.length_append]; omega),
      if_pos (show b2.length < st.exp_msg - b1.length by omega)]
    simp only [List.length_append, StepRes.brk.injEq, ClusterPr.mk.injEq, List.append_assoc,
      and_true, true_and]
    omega
  · have hge : b1.length ≤ st.exp_msg := by omega
    rw [if_neg (show ¬((b1 ++ b2).length < st.exp_msg) by
        simp only [List.length_append]; omega),
      if_neg (show ¬(b2.length < st.exp_msg - b1.length) by omega),
      take_append_of_ge b2 hge, drop_append_of_ge b2 hge]
    simp [List.append_assoc]

theorem step_channel_append_cont {st : ClusterPr} {b1 : List Nat} {st' : ClusterPr}
    {b1' : List Nat} {m : ClusterMsg} (b2 : List Nat)
    (h : step_channel st b1 = .cont st' b1' m) :
    step_channel st (b1 ++ b2) = .cont st' (b1' ++ b2) m := by
  unfold step_channel at h ⊢
  split_ifs at h with h1 h2
  all_goals try exact StepRes.noConfusion h
  · rw [if_pos h1]
    exact step_msg_append_cont b2 h
  · have hlen : st.exp_channel ≤ b1.length := by omega
    rw [if_neg h1,
      if_neg (show ¬((b1 ++ b2).length < st.exp_channel) by
        simp only [List.length_append]; omega),
      take_append_of_le b2 hlen, drop_append_of_le b2 hlen]
    exact step_msg_append_cont b2 h

theorem step_channel_append_brk {st : ClusterPr} {b1 : List Nat} {st' : ClusterPr}
    {r : List Nat} (b2 : List Nat) (h : step_channel st b1 = .brk st' r) :
    step_channel st (b1 ++ b2) = step_channel st' (r ++ b2) := by
  unfold step_channel at h
  split_ifs at h with h1 h2
  · have hsh := step_msg_brk_shape h
    rw [show step_channel st (b1 ++ b2) = step_msg st (b1 ++ b2) by
        unfold step_channel; rw [if_pos h1],
      show step_channel st' (r ++ b2) = step_msg st' (r ++ b2) by
        unfold step_channel; rw [if_pos (hsh.2.2.trans h1)]]
    exact step_msg_append_brk b2 h
  · injection h with hst hr
    subst hst hr
    rw [List.nil_append]
    unfold step_channel
    rw [if_neg h1, if_neg (show ¬(st.exp_channel - b1.length = 0) by omega)]
    by_cases hc : b1.length + b2.length < st.exp_channel
    · rw [if_pos (show (b1 ++ b2).length < st.exp_channel by
          simp only [List.length_append]; omega),
        if_pos (show b2.length < st.exp_channel - b1.length by omega)]
      simp only [List.length_append, StepRes.brk.injEq, ClusterPr.mk.injEq, List.append_assoc,
        and_true, true_and]
      omega
    · have hge : b1.length ≤ st.exp_channel := by omega
      rw [if_neg (show ¬((b1 ++ b2).length < st.exp_channel) by
          simp only [List.length_append]; omega),
        if_neg (show ¬(b2.length < st.exp_channel - b1.length) by omega),
        take_append_of_ge b2 hge, drop_append_of_ge b2 hge]
      simp [List.append_assoc]
  · have hsh := step_msg_brk_shape h
    have hlen : st.exp_channel ≤ b1.length := by omega
    rw [show step_channel st (b1 ++ b2) =
        step_msg { st with channel := st.channel ++ b1.take st.exp_channel, exp_channel := 0 }
          (b1.drop st.exp_channel ++ b2) by
        unfold step_channel
        rw [if_neg h1,
          if_neg (show ¬((b1 ++ b2).length < st.exp_channel) by
            simp only [List.length_append]; omega),
          take_append_of_le b2 hlen, drop_append_of_le b2 hlen],
      show step_channel st' (r ++ b2) = step_msg st' (r ++ b2) by
        unfold step_channel; rw [if_pos hsh.2.2]]
    exact step_msg_append_brk b2 h

theorem cluster_step_append_fatal {st : ClusterPr} {b1 : List Nat} (b2 : List Nat)
    (h : cluster_step st b1 = .fatal) : cluster_step st (b1 ++ b2) = .fatal := by
  unfold cluster_step at h
  split_ifs at h with h0 h1 h2 h3
  all_goals try exact StepRes.noConfusion h
  all_goals try exact absurd h (step_channel_ne_fatal _ _)
  · have h4 : (4:Nat) ≤ b1.length := by omega
    unfold cluster_step
    rw [if_pos h0,
      if_neg (show ¬((b1 ++ b2).length < 16) by simp only [List.length_append]; omega),
      readU32BE_append_left b2 h4, if_pos h2]
  · have h4 : (4:Nat) ≤ b1.length := by omega
    have h48 : (4:Nat) ≤ (b1.drop 4).length := by simp only [List.length_drop]; omega
    unfold cluster_step
    rw [if_pos h0,
      if_neg (show ¬((b1 ++ b2).length < 16) by simp only [List.length_append]; omega),
      readU32BE_append_left b2 h4, if_neg h2,
      drop_append_of_le b2 (by omega), readU32BE_append_left b2 h48, if_pos h3]

theorem cluster_step_append_brk {st : ClusterPr} {b1 : List Nat} {st' : ClusterPr}
    {r : List Nat} (b2 : List Nat) (h : cluster_step st b1 = .brk st' r) :
    cluster_step st (b1 ++ b2) = cluster_step st' (r ++ b2) := by
  unfold cluster_step at h
  split_ifs at h with h0 h1 h2 h3
  all_goals try exact StepRes.noConfusion h
  · injection h with hst hr
    subst hst hr
    rfl
  · have h4 : (4:Nat) ≤ b1.length := by omega
    have h48 : (4:Nat) ≤ (b1.drop 4).length := by simp only [List.length_drop]; omega
    have h488 : (4:Nat) ≤ (b1.drop 8).length := by simp only [List.length_drop]; omega
    have h4812 : (4:Nat) ≤ (b1.drop 12).length := by simp only [List.length_drop]; omega
    have hnb := step_channel_brk_shape h
    rw [show cluster_step st (b1 ++ b2) =
        step_channel
          { st with exp_channel := readU32BE b1, exp_msg := readU32BE (b1.drop 4),
                    mtype := readU32BE (b1.drop 8), mfilter := readU32BE (b1.drop 12) }
          (b1.drop 16 ++ b2) by
        unfold cluster_step
        rw [if_pos h0,
          if_neg (show ¬((b1 ++ b2).length < 16) by simp only [List.length_append]; omega),
          readU32BE_append_left b2 h4, if_neg h2,
          drop_append_of_le b2 (show (4:Nat) ≤ b1.length by omega),
          readU32BE_append_left b2 h48, if_neg h3,
          drop_append_of_le b2 (show (8:Nat) ≤ b1.length by omega),
          readU32BE_append_left b2 h488,
          drop_append_of_le b2 (show (12:Nat) ≤ b1.length by omega),
          readU32BE_append_left b2 h4812,
          drop_append_of_le b2 (show (16:Nat) ≤ b1.length by omega)],
      show cluster_step st' (r ++ b2) = step_channel st' (r ++ b2) by
        unfold cluster_step
        rw [if_neg hnb]]
    exact step_channel_append_brk b2 h
  · have hnb := step_channel_brk_shape h
    rw [show cluster_step st (b1 ++ b2) = step_channel st (b1 ++ b2) by
        unfold cluster_step
        rw [if_neg h0],
      show cluster_step st' (r ++ b2) = step_channel st' (r ++ b2) by
        unfold cluster_step
        rw [if_neg hnb]]
    exact step_channel_append_brk b2 h

theorem cluster_step_append_cont {st : ClusterPr} {b1 : List Nat} {st' : ClusterPr}
    {b1' : List Nat} {m : ClusterMsg} (b2 : List Nat)
    (h : cluster_step st b1 = .cont st' b1' m) :
    cluster_step st (b1 ++ b2) = .cont st' (b1' ++ b2) m := by
  unfold cluster_step at h
  split_ifs at h with h0 h1 h2 h3
  all_goals try exact StepRes.noConfusion h
  · have h4 : (4:Nat) ≤ b1.length := by omega
    have h48 : (4:Nat) ≤ (b1.drop 4).length := by simp only [List.length_drop]; omega
    have h488 : (4:Nat) ≤ (b1.drop 8).length := by simp only [List.length_drop]; omega
    have h4812 : (4:Nat) ≤ (b1.drop 12).length := by simp only [List.length_drop]; omega
    rw [show cluster_step st (b1 ++ b2) =
        step_channel
          { st with exp_channel := readU32BE b1, exp_msg := readU32BE (b1.drop 4),
                    mtype := readU32BE (b1.drop 8), mfilter := readU32BE (b1.drop 12) }
          (b1.drop 16 ++ b2) by
        unfold cluster_step
        rw [if_pos h0,
          if_neg (show ¬((b1 ++ b2).length < 16) by simp only [List.length_append]; omega),
          readU32BE_append_left b2 h4, if_neg h2,
          drop_append_of_le b2 (show (4:Nat) ≤ b1.length by omega),
          readU32BE_append_left b2 h48, if_neg h3,
          drop_append_of_le b2 (show (8:Nat) ≤ b1.length by omega),
          readU32BE_append_left b2 h488,
          drop_append_of_le b2 (show (12:Nat) ≤ b1.length by omega),
          readU32BE_append_left b2 h4812,
          drop_append_of_le b2 (show (16:Nat) ≤ b1.length by omega)]]
    exact step_channel_append_cont b2 h
  · rw [show cluster_step st (b1 ++ b2) = step_channel st (b1 ++ b2) by
        unfold cluster_step
        rw [if_neg h0]]
    exact step_channel_append_cont b2 h

theorem cluster_consume_eq (st : ClusterPr) (buf : List Nat) :
    cluster_consume st buf =
      match cluster_step st buf with
      | .fatal => none
      | .brk st' r => some (st', r, [])
      | .cont st' buf' m =>
        match cluster_consume st' buf' with
        | none => none
        | some (st'', r, out) => some (st'', r, m :: out) := by
  rw [cluster_consume]
  cases h' : cluster_step st buf <;> rfl

/-- Feeding a byte string in one piece or split at any point parses the
same: the loop breaks only when it cannot progress and resumes exactly
where it stopped. -/
theorem cluster_consume_append (b2 b1 : List Nat) (st : ClusterPr) :
    cluster_consume st (b1 ++ b2) = consumeThen (cluster_consume st b1) b2 := by
  generalize hn : b1.length = n
  induction n using Nat.strong_induction_on generalizing b1 st with
  | _ n ih =>
  cases hstep : cluster_step st b1 with
  | fatal =>
    rw [cluster_consume_eq st (b1 ++ b2), cluster_step_append_fatal b2 hstep,
      cluster_consume_eq st b1, hstep]
    rfl
  | brk st2 r =>
    rw [cluster_consume_eq st (b1 ++ b2), cluster_step_append_brk b2 hstep,
      ← cluster_consume_eq st2 (r ++ b2), cluster_consume_eq st b1, hstep]
    show cluster_consume st2 (r ++ b2) = consumeThen (some (st2, r, [])) b2
    simp only [consumeThen]
    cases hcc : cluster_consume st2 (r ++ b2) with
    | none => rfl
    | some p =>
      obtain ⟨sa, ra, outa⟩ := p
      simp
  | cont st2 b1' m =>
    rw [cluster_consume_eq st (b1 ++ b2), cluster_step_append_cont b2 hstep,
      cluster_consume_eq st b1, hstep]
    show (match cluster_consume st2 (b1' ++ b2) with
          | none => none
          | some (st'', r, out) => some (st'', r, m :: out)) =
        consumeThen (match cluster_consume st2 b1' with
          | none => none
          | some (st'', r, out) => some (st'', r, m :: out)) b2
    have hlt : b1'.length < n := hn ▸ cluster_step_cont_length hstep
    rw [ih b1'.length hlt b1' st2 rfl]
    cases hrec : cluster_consume st2 b1' with
    | none => rfl
    | some p =>
      obtain ⟨sa, ra, outa⟩ := p
      show (match consumeThen (some (sa, ra, outa)) b2 with
            | none => none
            | some (st'', r, out) => some (st'', r, m :: out)) =
          consumeThen (some (sa, ra, m :: outa)) b2
      simp only [consumeThen]
      cases hcc : cluster_consume sa (ra ++ b2) with
      | none => rfl
      | some q =>
        obtain ⟨sb, rb, outb⟩ := q
        simp

/-- The loop always leaves a quiescent connection behind: running it
again on the residual alone changes nothing. -/
theorem cluster_consume_quiescent {st : ClusterPr} {buf : List Nat} {st' : ClusterPr}
    {r : List Nat} {out : List ClusterMsg}
    (h : cluster_consume st buf = some (st', r, out)) : cluster_step st' r = .brk st' r := by
  generalize hn : buf.length = n
  induction n using Nat.strong_induction_on generalizing buf st out with
  | _ n ih =>
  rw [cluster_consume_eq st buf] at h
  cases hstep : cluster_step st buf with
  | fatal =>
    rw [hstep] at h
    exact Option.noConfusion h
  | brk st2 r2 =>
    rw [hstep] at h
    injection h with h'
    injection h' with h1 h2
    subst h1
    injection h2 with h3 h4
    subst h3
    exact cluster_step_brk_self hstep
  | cont st2 b2 m =>
    rw [hstep] at h
    have h2 : (match cluster_consume st2 b2 with
        | none => none
        | some (st'', r, out) => some (st'', r, m :: out)) = some (st', r, out) := h
    clear h
    cases hrec : cluster_consume st2 b2 with
    | none =>
      rw [hrec] at h2
      exact Option.noConfusion h2
    | some p =>
      obtain ⟨sa, ra, outa⟩ := p
      rw [hrec] at h2
      injection h2 with h'
      injection h' with ha hb
      subst ha
      injection hb with hb1 hb2
      subst hb1
      exact ih b2.length (hn ▸ cluster_step_cont_length hstep) hrec rfl

theorem u32be_cons_drop4 (n : Nat) (X : List Nat) : (u32be n ++ X).drop 4 = X := rfl

theorem u32be_cons_drop8 (n m : Nat) (X : List Nat) :
    (u32be n ++ (u32be m ++ X)).drop 8 = X := rfl

theorem u32be_cons_drop12 (a b c : Nat) (X : List Nat) :
    (u32be a ++ (u32be b ++ (u32be c ++ X))).drop 12 = X := rfl

theorem u32be_cons_drop16 (a b c d : Nat) (X : List Nat) :
    (u32be a ++ (u32be b ++ (u32be c ++ (u32be d ++ X)))).drop 16 = X := rfl

theorem step_msg_exact (s : ClusterPr) (msgb rest : List Nat)
    (hmsg : s.msg = []) (hme : s.exp_msg = msgb.length) :
    step_msg s (msgb ++ rest) =
      .cont ⟨[], [], s.exp_channel, 0, s.mtype, s.mfilter⟩ rest
        ⟨s.mtype, s.mfilter, s.channel, msgb⟩ := by
  unfold step_msg
  by_cases hm0 : msgb = []
  · subst hm0
    simp only [List.length_nil] at hme
    rw [if_pos hme]
    simp [hmsg, hme]
  · have hne : ¬(s.exp_msg = 0) := by
      rw [hme]
      simpa using hm0
    rw [if_neg hne,
      if_neg (show ¬((msgb ++ rest).length < s.exp_msg) by
        rw [hme]
        simp only [List.length_append]
        omega),
      hme, List.take_left, List.drop_left]
    simp [hmsg]

theorem step_channel_exact (s : ClusterPr) (chb msgb rest : List Nat)
    (hch : s.channel = []) (hmsg : s.msg = [])
    (hce : s.exp_channel = chb.length) (hme : s.exp_msg = msgb.length) :
    step_channel s (chb ++ (msgb ++ rest)) =
      .cont ⟨[], [], 0, 0, s.mtype, s.mfilter⟩ rest
        ⟨s.mtype, s.mfilter, chb, msgb⟩ := by
  unfold step_channel
  by_cases hc0 : chb = []
  · subst hc0
    simp only [List.length_nil] at hce
    rw [if_pos hce, List.nil_append]
    rw [step_msg_exact s msgb rest hmsg hme, hce, hch]
  · have hne : ¬(s.exp_channel = 0) := by
      rw [hce]
      simpa using hc0
    rw [if_neg hne,
      if_neg (show ¬((chb ++ (msgb ++ rest)).length < s.exp_channel) by
        rw [hce]
        simp only [List.length_append]
        omega),
      hce, List.take_left, List.drop_left,
      step_msg_exact
        { channel := s.channel ++ chb, msg := s.msg, exp_channel := 0,
          exp_msg := s.exp_msg, mtype := s.mtype, mfilter := s.mfilter }
        msgb rest hmsg hme]
    simp [hch]

theorem cluster_step_frame {st : ClusterPr} (m : ClusterMsg) (rest : List Nat)
    (h0 : st.exp_channel = 0) (h1 : st.exp_msg = 0) (h2 : st.channel = [])
    (h3 : st.msg = []) (hv : validClusterMsg m) :
    cluster_step st (encodeMsg m ++ rest) =
      .cont ⟨[], [], 0, 0, m.mtype, m.mfilter⟩ rest m := by
  obtain ⟨hvc, hvm, hvt, hvf⟩ := hv
  have hdec : encodeMsg m ++ rest =
      u32be m.channel.length ++ (u32be m.msg.length ++ (u32be m.mtype ++ (u32be m.mfilter ++
        (m.channel ++ (m.msg ++ rest))))) := by
    simp [encodeMsg, cluster_wrap_message, List.append_assoc]
  rw [hdec]
  unfold cluster_step
  rw [if_pos ⟨h0, h1⟩, u32be_cons_drop4, u32be_cons_drop8, u32be_cons_drop12,
    u32be_cons_drop16,
    readU32BE_u32be_append m.channel.length (by omega) _,
    readU32BE_u32be_append m.msg.length (by omega) _,
    readU32BE_u32be_append m.mtype hvt _,
    readU32BE_u32be_append m.mfilter hvf _,
    if_neg (show ¬((u32be m.channel.length ++ (u32be m.msg.length ++ (u32be m.mtype ++
        (u32be m.mfilter ++ (m.channel ++ (m.msg ++ rest)))))).length < 16) by
      simp [u32be]),
    if_neg (show ¬(16777216 ≤ m.channel.length) by omega),
    if_neg (show ¬(67108864 ≤ m.msg.length) by omega),
    step_channel_exact
      { channel := st.channel, msg := st.msg, exp_channel := m.channel.length,
        exp_msg := m.msg.length, mtype := m.mtype, mfilter := m.mfilter }
      m.channel m.msg rest h2 h3 rfl rfl]

theorem cluster_consume_stream (ms : List ClusterMsg) :
    ∀ (st : ClusterPr), (∀ m ∈ ms, validClusterMsg m) →
      st.exp_channel = 0 → st.exp_msg = 0 → st.channel = [] → st.msg = [] →
      ∃ st', cluster_consume st ((ms.map encodeMsg).join) = some (st', [], ms) ∧
        st'.exp_channel = 0 ∧ st'.exp_msg = 0 ∧ st'.channel = [] ∧ st'.msg = [] := by
  induction ms with
  | nil =>
    intro st hv h0 h1 h2 h3
    refine ⟨st, ?_, h0, h1, h2, h3⟩
    have hstep : cluster_step st [] = .brk st [] := by
      unfold cluster_step
      rw [if_pos ⟨h0, h1⟩, if_pos (by simp)]
    show cluster_consume st [] = some (st, [], [])
    rw [cluster_consume_eq, hstep]
  | cons m ms ih =>
    intro st hv h0 h1 h2 h3
    have hvm : validClusterMsg m := hv m (by simp)
    have hrest : ∀ m' ∈ ms, validClusterMsg m' := fun m' hm' => hv m' (by simp [hm'])
    obtain ⟨st', heq, k0, k1, k2, k3⟩ :=
      ih ⟨[], [], 0, 0, m.mtype, m.mfilter⟩ hrest rfl rfl rfl rfl
    refine ⟨st', ?_, k0, k1, k2, k3⟩
    rw [show ((m :: ms).map encodeMsg).join = encodeMsg m ++ (ms.map encodeMsg).join by simp,
      cluster_consume_eq, cluster_step_frame m _ h0 h1 h2 h3 hvm]
    show (match cluster_consume ⟨[], [], 0, 0, m.mtype, m.mfilter⟩ ((ms.map encodeMsg).join) with
          | none => none
          | some (st'', r, out) => some (st'', r, m :: out)) = some (st', [], m :: ms)
    rw [heq]

theorem cluster_feed_join (cs : List (List Nat)) :
    ∀ (conn : ClusterPr × List Nat), quiescentConn conn →
      cluster_feed conn cs =
        (match cluster_consume conn.1 (conn.2 ++ cs.join) with
         | none => none
         | some (st, r, out) => some ((st, r), out)) := by
  induction cs with
  | nil =>
    intro conn hq
    have hc : cluster_consume conn.1 conn.2 = some (conn.1, conn.2, []) := by
      rw [cluster_consume_eq, hq]
    simp only [cluster_feed, List.join_nil, List.append_nil, hc]
  | cons c cs ih =>
    intro conn hq
    by_cases hcnil : c = []
    · subst hcnil
      have hun : cluster_feed conn ([] :: cs) =
          (match cluster_feed conn cs with
           | none => none
           | some (conn'', out') => some (conn'', ([] : List ClusterMsg) ++ out')) := rfl
      rw [hun, ih conn hq]
      rw [show conn.2 ++ (([] : List Nat) :: cs).join = conn.2 ++ cs.join by simp]
      cases hx : cluster_consume conn.1 (conn.2 ++ cs.join) with
      | none => rfl
      | some p =>
        obtain ⟨sa, ra, outa⟩ := p
        simp
    · simp only [cluster_feed, cluster_on_data, if_neg hcnil]
      cases hcc : cluster_consume conn.1 (conn.2 ++ c) with
      | none =>
        have hnone : cluster_consume conn.1 (conn.2 ++ (c :: cs).join) = none := by
          rw [show conn.2 ++ (c :: cs).join = (conn.2 ++ c) ++ cs.join by
              simp [List.append_assoc],
            cluster_consume_append, hcc]
          rfl
        rw [hnone]
      | some p =>
        obtain ⟨st1, r1, out1⟩ := p
        have hq1 : quiescentConn (st1, r1) := cluster_consume_quiescent hcc
        have hsplit : cluster_consume conn.1 (conn.2 ++ (c :: cs).join) =
            consumeThen (some (st1, r1, out1)) cs.join := by
          rw [show conn.2 ++ (c :: cs).join = (conn.2 ++ c) ++ cs.join by
              simp [List.append_assoc],
            cluster_consume_append, hcc]
        show (match cluster_feed (st1, r1) cs with
              | none => none
              | some (conn'', out') => some (conn'', out1 ++ out')) =
            (match cluster_consume conn.1 (conn.2 ++ (c :: cs).join) with
             | none => none
             | some (st, r, out) => some ((st, r), out))
        rw [ih (st1, r1) hq1, hsplit]
        show (match (match cluster_consume st1 (r1 ++ cs.join) with
              | none => none
              | some (st, r, out) => some ((st, r), out)) with
            | none => none
            | some (conn'', out') => some (conn'', out1 ++ out')) =
          (match consumeThen (some (st1, r1, out1)) cs.join with
           | none => none
           | some (st, r, out) => some ((st, r), out))
        simp only [consumeThen]
        cases hfin : cluster_consume st1 (r1 ++ cs.join) with
        | none => rfl
        | some q =>
          obtain ⟨sa, ra, outa⟩ := q
          rfl

/-- C2: every frame stream produced by the sender (`cluster_wrap_message`),
however the byte stream is split across successive socket reads, is parsed
by the receiver (`cluster_on_data`) into exactly one handler invocation per
frame, in order, carrying the original type, filter, channel bytes and
payload bytes. -/
theorem cluster_sender_receiver_roundtrip (ms : List ClusterMsg) (cs : List (List Nat))
    (hv : ∀ m ∈ ms, validClusterMsg m)
    (hs : cs.join = (ms.map encodeMsg).join) :
    ∃ conn, cluster_feed (cluster_pr_init, []) cs = some (conn, ms) := by
  have hq : quiescentConn (cluster_pr_init, []) := by
    show cluster_step cluster_pr_init [] = .brk cluster_pr_init []
    decide
  obtain ⟨st', heq, -, -, -, -⟩ := cluster_consume_stream ms cluster_pr_init hv rfl rfl rfl rfl
  refine ⟨(st', []), ?_⟩
  rw [cluster_feed_join cs (cluster_pr_init, []) hq]
  show (match cluster_consume cluster_pr_init ([] ++ cs.join) with
        | none => none
        | some (st, r, out) => some ((st, r), out)) = some ((st', []), ms)
  rw [List.nil_append, hs, heq]

/-- Witness for C2: the frame `type 0, filter 5, channel [97],
payload [104, 105]` split across two socket reads in the middle of the
header. -/
theorem cluster_sender_receiver_roundtrip_witness :
    (∀ m ∈ [(⟨0, 5, [97], [104, 105]⟩ : ClusterMsg)], validClusterMsg m) ∧
    ([[0, 0, 0, 1, 0, 0], [0, 2, 0, 0, 0, 0, 0, 0, 0, 5, 97, 104, 105]] :
        List (List Nat)).join =
      ([(⟨0, 5, [97], [104, 105]⟩ : ClusterMsg)].map encodeMsg).join ∧
    ∃ conn, cluster_feed (cluster_pr_init, [])
        [[0, 0, 0, 1, 0, 0], [0, 2, 0, 0, 0, 0, 0, 0, 0, 5, 97, 104, 105]] =
      some (conn, [⟨0, 5, [97], [104, 105]⟩]) :=
  ⟨by decide, by decide,
    cluster_sender_receiver_roundtrip [⟨0, 5, [97], [104, 105]⟩] _ (by decide) (by decide)⟩

/-- C7: a received header declaring a channel length of at least 16 MiB or
a payload length of at least 64 MiB terminates the receiving process
(`exit(1)` after the log line, modelled as `none`), and the parser treats
no header below both limits as an overflow error (`fatal` arises only from
one of the two limit checks). -/
theorem cluster_frame_limits :
    (∀ (cl ml ty fl : Nat) (rest : List Nat), 16777216 ≤ cl → cl < 4294967296 →
      cluster_on_data (cluster_pr_init, [])
        (u32be cl ++ (u32be ml ++ (u32be ty ++ (u32be fl ++ rest)))) = none) ∧
    (∀ (cl ml ty fl : Nat) (rest : List Nat), cl < 16777216 → 67108864 ≤ ml →
      ml < 4294967296 →
      cluster_on_data (cluster_pr_init, [])
        (u32be cl ++ (u32be ml ++ (u32be ty ++ (u32be fl ++ rest)))) = none) ∧
    (∀ (st : ClusterPr) (buf : List Nat), cluster_step st buf = .fatal →
      16777216 ≤ readU32BE buf ∨ 67108864 ≤ readU32BE (buf.drop 4)) := by
  refine ⟨?_, ?_, ?_⟩
  · intro cl ml ty fl rest hlo hhi
    unfold cluster_on_data
    rw [if_neg (show ¬(u32be cl ++ (u32be ml ++ (u32be ty ++ (u32be fl ++ rest))) = []) by
        simp [u32be])]
    have hfat : cluster_step cluster_pr_init
        (u32be cl ++ (u32be ml ++ (u32be ty ++ (u32be fl ++ rest)))) = .fatal := by
      unfold cluster_step
      rw [if_pos ⟨rfl, rfl⟩,
        if_neg (show ¬((u32be cl ++ (u32be ml ++ (u32be ty ++ (u32be fl ++ rest)))).length
            < 16) by simp [u32be]),
        readU32BE_u32be_append cl hhi, if_pos hlo]
    show (match cluster_consume cluster_pr_init
        (u32be cl ++ (u32be ml ++ (u32be ty ++ (u32be fl ++ rest)))) with
        | none => none
        | some (st, r, out) => some ((st, r), out)) = none
    rw [cluster_consume_eq, hfat]
  · intro cl ml ty fl rest hcl hlo hhi
    unfold cluster_on_data
    rw [if_neg (show ¬(u32be cl ++ (u32be ml ++ (u32be ty ++ (u32be fl ++ rest))) = []) by
        simp [u32be])]
    have hfat : cluster_step cluster_pr_init
        (u32be cl ++ (u32be ml ++ (u32be ty ++ (u32be fl ++ rest)))) = .fatal := by
      unfold cluster_step
      rw [if_pos ⟨rfl, rfl⟩,
        if_neg (show ¬((u32be cl ++ (u32be ml ++ (u32be ty ++ (u32be fl ++ rest)))).length
            < 16) by simp [u32be]),
        readU32BE_u32be_append cl (by omega),
        if_neg (show ¬(16777216 ≤ cl) by omega),
        u32be_cons_drop4, readU32BE_u32be_append ml hhi, if_pos hlo]
    show (match cluster_consume cluster_pr_init
        (u32be cl ++ (u32be ml ++ (u32be ty ++ (u32be fl ++ rest)))) with
        | none => none
        | some (st, r, out) => some ((st, r), out)) = none
    rw [cluster_consume_eq, hfat]
  · intro st buf h
    unfold cluster_step at h
    split_ifs at h with h0 h1 h2 h3
    all_goals try exact absurd h (step_channel_ne_fatal _ _)
    all_goals try exact StepRes.noConfusion h
    all_goals first | exact Or.inl h2 | exact Or.inr h3

/-- Witness for C7: an oversized channel header, an oversized payload
header, and a concrete fatal step. -/
theorem cluster_frame_limits_witness :
    cluster_on_data (cluster_pr_init, [])
        (u32be 16777216 ++ (u32be 0 ++ (u32be 0 ++ (u32be 0 ++ [])))) = none ∧
    cluster_on_data (cluster_pr_init, [])
        (u32be 3 ++ (u32be 67108864 ++ (u32be 0 ++ (u32be 0 ++ [97, 98, 99])))) = none ∧
    (16777216 ≤ readU32BE [1, 0, 0, 0, 0, 0, 0, 0, 0, 0, 0, 0, 0, 0, 0, 0] ∨
      67108864 ≤ readU32BE ([1, 0, 0, 0, 0, 0, 0, 0, 0, 0, 0, 0, 0, 0, 0, 0].drop 4)) :=
  ⟨cluster_frame_limits.1 16777216 0 0 0 [] (by decide) (by decide),
   cluster_frame_limits.2.1 3 67108864 0 0 [97, 98, 99] (by decide) (by decide) (by decide),
   cluster_frame_limits.2.2 cluster_pr_init
     [1, 0, 0, 0, 0, 0, 0, 0, 0, 0, 0, 0, 0, 0, 0, 0] (by decide)⟩

/-! ## Theorems: the glob matcher -/

/-- C9: evaluation of `facil_glob_match` at the divergence points. The
spec says `*` matches any byte run including the empty run and that the
single-character pattern `*` matches every input; the code returns
no-match for pattern `*` against the empty input (and for `a*` against
`a`), because the loop exits as soon as the input is exhausted and then
requires the whole pattern to have been consumed, so a trailing `*` is
never consumed against an empty remainder — while the same patterns do
match once one more byte of input is present. -/
theorem glob_trailing_star_empty_run :
    facil_glob_match [42] [] = false ∧
    facil_glob_match [42] [97] = true ∧
    facil_glob_match [97, 42] [97] = false ∧
    facil_glob_match [97, 42] [97, 98] = true := by
  refine ⟨?_, ?_, ?_, ?_⟩ <;> simp [facil_glob_match, glob_loop]

/-! ## Theorems: message preparation and scope fan-out -/

/-- C6: `prepare_message` marks the envelope FORWARD (0) exactly when the
channel is absent-or-byte-string and the payload is absent-or-byte-string;
otherwise it marks it JSON (1) and replaces each present part by its JSON
serialization; and `publish_msg2all` performs this normalization once,
before any fan-out — both the cluster send and the local dispatch carry
the same prepared type, channel and payload. -/
theorem prepare_message_normalization (isRoot : Bool) (fl : Int) (ch msg : Option Fiobj) :
    ((prepare_message fl ch msg).mtype = 0 ↔
      (strOrNone ch = true ∧ strOrNone msg = true)) ∧
    ((prepare_message fl ch msg).mtype = 0 →
      (prepare_message fl ch msg).channel = ch ∧ (prepare_message fl ch msg).msg = msg) ∧
    ((prepare_message fl ch msg).mtype ≠ 0 →
      (prepare_message fl ch msg).mtype = 1 ∧
      (prepare_message fl ch msg).channel = ch.map (fun v => .str (obj2json v)) ∧
      (prepare_message fl ch msg).msg = msg.map (fun v => .str (obj2json v))) ∧
    (prepare_message fl ch msg).mfilter = fl ∧
    publish_msg2all isRoot fl ch msg =
      facil_send2cluster isRoot (prepare_message fl ch msg).mtype fl
        (prepare_message fl ch msg).channel (prepare_message fl ch msg).msg ++
      [.localDispatch (prepare_message fl ch msg).mtype fl
        (prepare_message fl ch msg).channel (prepare_message fl ch msg).msg] := by
  unfold publish_msg2all publish2process_ev prepare_message
  by_cases h : (strOrNone ch && strOrNone msg) = true
  · rw [if_pos h]
    simp_all [Bool.and_eq_true]
  · rw [if_neg h]
    simp_all [Bool.and_eq_true]

/-- Witness for C6: a non-string channel forces the JSON marking with
serialized parts; two plain byte strings keep FORWARD with the original
parts. -/
theorem prepare_message_normalization_witness :
    ((prepare_message 0 (some (.num 3)) none).mtype ≠ 0 →
      (prepare_message 0 (some (.num 3)) none).mtype = 1 ∧
      (prepare_message 0 (some (.num 3)) none).channel =
        (some (Fiobj.num 3)).map (fun v => .str (obj2json v)) ∧
      (prepare_message 0 (some (.num 3)) none).msg =
        (none : Option Fiobj).map (fun v => .str (obj2json v))) ∧
    ((prepare_message 7 (some (.str [97])) (some (.str [98]))).mtype = 0 →
      (prepare_message 7 (some (.str [97])) (some (.str [98]))).channel =
        some (.str [97]) ∧
      (prepare_message 7 (some (.str [97])) (some (.str [98]))).msg =
        some (.str [98])) ∧
    (prepare_message 7 (some (.str [97])) (some (.str [98]))).mtype = 0 :=
  ⟨(prepare_message_normalization false 0 (some (.num 3)) none).2.2.1,
   (prepare_message_normalization true 7 (some (.str [97])) (some (.str [98]))).2.1,
   ((prepare_message_normalization true 7 (some (.str [97]))
      (some (.str [98]))).1).mpr ⟨by decide, by decide⟩⟩

/-- C8: ROOT-scope publishing. In the root process `publish_msg2root` is
identical to PROCESS scope (`publish_msg2local`); in a worker it emits
exactly one upstream frame typed ROOT (2) — or ROOT_JSON (3) when the
envelope was normalized to JSON — and schedules no local delivery; and the
root's handler dispatches a received ROOT / ROOT_JSON frame locally only,
rebroadcasting nothing to the children. -/
theorem publish_root_scope :
    (∀ (fl : Int) (ch msg : Option Fiobj),
      publish_msg2root true fl ch msg = publish_msg2local fl ch msg) ∧
    (∀ (fl : Int) (ch msg : Option Fiobj),
      publish_msg2root false fl ch msg =
        [PubEv.frameUp (if (prepare_message fl ch msg).mtype = 1 then 3 else 2) fl
          (prepare_message fl ch msg).channel (prepare_message fl ch msg).msg]) ∧
    (∀ (ty : Nat) (fl : Int) (ch msg : Option Fiobj), ty = 2 ∨ ty = 3 →
      cluster_server_handler ty fl ch msg =
        [PubEv.localDispatch (if ty = 3 then 1 else 2) fl ch msg]) := by
  refine ⟨fun fl ch msg => rfl, fun fl ch msg => ?_, fun ty fl ch msg hty => ?_⟩
  · unfold publish_msg2root facil_send2cluster prepare_message
    split_ifs <;> simp_all
  · rcases hty with h | h <;> subst h <;> rfl

/-- Witness for C8 at concrete frames. -/
theorem publish_root_scope_witness :
    publish_msg2root true 4 none (some (.str [104])) =
      publish_msg2local 4 none (some (.str [104])) ∧
    cluster_server_handler 2 4 none (some (.str [104])) =
      [PubEv.localDispatch 2 4 none (some (.str [104]))] ∧
    cluster_server_handler 3 4 none (some (.str [104])) =
      [PubEv.localDispatch 1 4 none (some (.str [104]))] :=
  ⟨publish_root_scope.1 4 none (some (.str [104])),
   by simpa using publish_root_scope.2.2 2 4 none (some (.str [104])) (Or.inl rfl),
   by simpa using publish_root_scope.2.2 3 4 none (some (.str [104])) (Or.inr rfl)⟩

/-! ## Theorems: subscription and channel management -/

theorem collFind_collUpdate (l : List (FioId × ChannelRec)) (k : FioId)
    (f : ChannelRec → ChannelRec) :
    collFind (collUpdate l k f) k = (collFind l k).map f := by
  induction l with
  | nil => rfl
  | cons p rest ih =>
    by_cases hp : p.1 = k
    · simp [collUpdate, collFind, hp]
    · simp [collUpdate, collFind, hp, ih]

theorem collFind_append_self (l : List (FioId × ChannelRec)) (k : FioId) (c : ChannelRec)
    (h : collFind l k = none) : collFind (l ++ [(k, c)]) k = some c := by
  induction l with
  | nil => simp [collFind]
  | cons p rest ih =>
    by_cases hp : p.1 = k
    · unfold collFind at h
      rw [if_pos hp] at h
      exact Option.noConfusion h
    · unfold collFind at h
      rw [if_neg hp] at h
      simp only [List.cons_append]
      unfold collFind
      rw [if_neg hp]
      exact ih h

theorem subscription_create_in_shape (po : Postoffice) (args : SubscribeArgs)
    (tag : CollTag) (key : FioId) :
    ∃ (evs : List Ev) (po2 : Postoffice),
      subscription_create_in po args tag key =
        ({ po2 with
            subs := (po.nextSub,
              ⟨tag, key, args.on_message.getD 0, args.on_unsubscribe,
                args.udata1, args.udata2, 1⟩) :: po2.subs,
            nextSub := po.nextSub + 1 }, some po.nextSub, evs) := by
  unfold subscription_create_in
  cases hf : collFind (getColl po tag) key with
  | some c =>
    exact ⟨[], setColl po tag (collUpdate (getColl po tag) key
      (fun c => { c with subs := c.subs ++ [po.nextSub] })), rfl⟩
  | none =>
    exact ⟨(if args.filter = 0 then pubsub_on_channel_create po key args.match_fn else []),
      setColl po tag (getColl po tag ++ [(key, ⟨key, [po.nextSub], args.match_fn⟩)]), rfl⟩

theorem subscription_create_some {po : Postoffice} {args : SubscribeArgs} {po' : Postoffice}
    {sid : Nat} {evs : List Ev}
    (h : subscription_create po args = (po', some sid, evs)) :
    ∃ s, subsFind po'.subs sid = some s ∧ s.ref = 1 ∧
      s.on_unsubscribe = args.on_unsubscribe ∧ s.udata1 = args.udata1 ∧
      s.udata2 = args.udata2 := by
  unfold subscription_create at h
  by_cases hg : args.on_message = none ∨ (args.channel = none ∧ args.filter = 0)
  · rw [if_pos hg] at h
    have hne : (none : Option Nat) = some sid := congrArg (fun t => t.2.1) h
    exact Option.noConfusion hne
  · rw [if_neg hg] at h
    obtain ⟨evs2, po2, heq⟩ := subscription_create_in_shape po args
      (if args.filter ≠ 0 then .filters
       else if args.match_fn.isSome then .patterns else .pubsub)
      (if args.filter ≠ 0 then .num args.filter else args.channel.getD (.str []))
    rw [heq] at h
    injection h with h1 h2
    injection h2 with h21 h22
    injection h21 with hsid
    subst hsid
    subst h1
    refine ⟨⟨(if args.filter ≠ 0 then .filters
        else if args.match_fn.isSome then .patterns else .pubsub),
      (if args.filter ≠ 0 then .num args.filter else args.channel.getD (.str [])),
      args.on_message.getD 0, args.on_unsubscribe, args.udata1, args.udata2, 1⟩,
      ?_, rfl, rfl, rfl, rfl⟩
    show subsFind ((po.nextSub,
        (⟨(if args.filter ≠ 0 then .filters
            else if args.match_fn.isSome then .patterns else .pubsub),
          (if args.filter ≠ 0 then .num args.filter else args.channel.getD (.str [])),
          args.on_message.getD 0, args.on_unsubscribe, args.udata1, args.udata2,
          1⟩ : SubRec)) :: po2.subs) po.nextSub = _
    unfold subsFind
    rw [if_pos rfl]

/-- C1: code-bug evaluation. In a worker process (client link set) with
one attached engine, subscribing to filter 7 creates the filter channel
silently (no engine or root notification — the creation side of the claim
holds), but unsubscribing — which destroys the filter channel — invokes
the engine's `unsubscribe` hook with the numeric identity and sends a
PUBSUB_UNSUB (5) frame to the root, because `channel_destroy` calls
`pubsub_on_channel_destroy` unconditionally, for filter channels too. -/
theorem filter_channel_destroy_notifies :
    ((subscription_create { postoffice_init with engines := [1], clientSet := true }
        ⟨7, none, none, some 1, none, 0, 0⟩).2.2 = []) ∧
    ((subscription_create { postoffice_init with engines := [1], clientSet := true }
        ⟨7, none, none, some 1, none, 0, 0⟩).2.1 = some 0) ∧
    ((subscription_destroy
        (subscription_create { postoffice_init with engines := [1], clientSet := true }
          ⟨7, none, none, some 1, none, 0, 0⟩).1 0).2 =
      [Ev.engineUnsub 1 (FioId.num 7) none, Ev.rootFrame 5 (FioId.num 7)]) := by
  decide

/-- C4: a subscribe whose message callback is absent, or with neither a
channel nor a nonzero filter, returns NULL, leaves every collection and
the subscription heap untouched, and runs the supplied `on_unsubscribe`
immediately and exactly once with the supplied user data. -/
theorem subscribe_invalid_args (po : Postoffice) (args : SubscribeArgs)
    (h : args.on_message = none ∨ (args.channel = none ∧ args.filter = 0)) :
    subscription_create po args =
      (po, none,
        match args.on_unsubscribe with
        | some cb => [Ev.onUnsub cb args.udata1 args.udata2]
        | none => []) := by
  unfold subscription_create
  rw [if_pos h]

/-- Witness for C4: a filter-0, channel-less subscribe with an
`on_unsubscribe` callback. -/
theorem subscribe_invalid_args_witness :
    ((⟨0, none, none, some 3, some 9, 5, 6⟩ : SubscribeArgs).on_message = none ∨
      ((⟨0, none, none, some 3, some 9, 5, 6⟩ : SubscribeArgs).channel = none ∧
        (⟨0, none, none, some 3, some 9, 5, 6⟩ : SubscribeArgs).filter = 0)) ∧
    subscription_create postoffice_init ⟨0, none, none, some 3, some 9, 5, 6⟩ =
      (postoffice_init, none, [Ev.onUnsub 9 5 6]) :=
  ⟨Or.inr ⟨rfl, rfl⟩,
    subscribe_invalid_args postoffice_init ⟨0, none, none, some 3, some 9, 5, 6⟩
      (Or.inr ⟨rfl, rfl⟩)⟩

/-- C5 counterexample: a subscribe supplying both the nonzero filter 3 and
a match function is NOT rejected by `subscription_create` — it returns
handle 0 and the subscription sits in the filters collection (stored in a
pattern-shaped channel object, since the allocation branch keys on the
match function alone). -/
theorem subscribe_filter_match_not_rejected :
    (subscription_create postoffice_init ⟨3, none, some 5, some 1, none, 0, 0⟩).2.1 =
      some 0 ∧
    collFind (subscription_create postoffice_init
        ⟨3, none, some 5, some 1, none, 0, 0⟩).1.filters (FioId.num 3) =
      some ⟨FioId.num 3, [0], some 5⟩ := by
  decide

/-- C5 amended: a subscribe with a nonzero filter and a non-null match
function is accepted, not rejected: it returns a fresh non-null handle and
installs the subscription in the filters collection under the numeric
key (the stored match function is never consulted on the filter dispatch
path). -/
theorem subscribe_filter_match_installs (po : Postoffice) (args : SubscribeArgs)
    (hf : args.filter ≠ 0) (hm : args.on_message ≠ none)
    (hmf : args.match_fn.isSome = true) :
    ∃ ch, (subscription_create po args).2.1 = some po.nextSub ∧
      collFind (subscription_create po args).1.filters (FioId.num args.filter) = some ch ∧
      po.nextSub ∈ ch.subs := by
  unfold subscription_create
  rw [if_neg (by
      rintro (hc | ⟨-, h0⟩)
      · exact hm hc
      · exact hf h0),
    if_pos hf, if_pos hf]
  unfold subscription_create_in
  cases hfind : collFind (getColl po CollTag.filters) (FioId.num args.filter) with
  | some c =>
    refine ⟨{ c with subs := c.subs ++ [po.nextSub] }, rfl, ?_, by simp⟩
    show collFind (collUpdate (getColl po CollTag.filters) (FioId.num args.filter)
        (fun c => { c with subs := c.subs ++ [po.nextSub] })) (FioId.num args.filter) = _
    rw [collFind_collUpdate, hfind]
    rfl
  | none =>
    refine ⟨⟨FioId.num args.filter, [po.nextSub], args.match_fn⟩, rfl, ?_, by simp⟩
    show collFind (getColl po CollTag.filters ++
        [(FioId.num args.filter, ⟨FioId.num args.filter, [po.nextSub], args.match_fn⟩)])
        (FioId.num args.filter) = _
    exact collFind_append_self _ _ _ hfind

/-- Witness for the amended C5 at the counterexample's input. -/
theorem subscribe_filter_match_installs_witness :
    ((⟨3, none, some 5, some 1, none, 0, 0⟩ : SubscribeArgs).filter ≠ 0) ∧
    ((⟨3, none, some 5, some 1, none, 0, 0⟩ : SubscribeArgs).on_message ≠ none) ∧
    ((⟨3, none, some 5, some 1, none, 0, 0⟩ : SubscribeArgs).match_fn.isSome = true) ∧
    ∃ ch, (subscription_create postoffice_init
        ⟨3, none, some 5, some 1, none, 0, 0⟩).2.1 = some postoffice_init.nextSub ∧
      collFind (subscription_create postoffice_init
          ⟨3, none, some 5, some 1, none, 0, 0⟩).1.filters (FioId.num 3) = some ch ∧
      postoffice_init.nextSub ∈ ch.subs :=
  ⟨by decide, by decide, by decide,
    subscribe_filter_match_installs postoffice_init
      ⟨3, none, some 5, some 1, none, 0, 0⟩ (by decide) (by decide) (by decide)⟩

theorem runRefOps_balanced (ops : List RefOp) : ∀ (s : SubRec), 0 < s.ref →
    (∀ n, n < ops.length → countFree (ops.take n) < s.ref + countDup (ops.take n)) →
    countFree ops = s.ref + countDup ops →
    (runRefOps s ops).2 =
      (match s.on_unsubscribe with
       | some cb => [Ev.onUnsub cb s.udata1 s.udata2]
       | none => []) := by
  induction ops with
  | nil =>
    intro s hpos _ htot
    simp only [countFree, countDup] at htot
    omega
  | cons op rest ih =>
    intro s hpos hpre htot
    cases op with
    | dup =>
      have hA : 0 < ({ s with ref := s.ref + 1 } : SubRec).ref := by
        show 0 < s.ref + 1
        omega
      have hB : ∀ n, n < rest.length → countFree (rest.take n) <
          ({ s with ref := s.ref + 1 } : SubRec).ref + countDup (rest.take n) := by
        intro n hn
        have h2 := hpre (n + 1) (Nat.succ_lt_succ hn)
        simp only [List.take_succ_cons, countFree, countDup] at h2
        show countFree (rest.take n) < s.ref + 1 + countDup (rest.take n)
        omega
      have hC : countFree rest = ({ s with ref := s.ref + 1 } : SubRec).ref + countDup rest := by
        simp only [countFree, countDup] at htot
        show countFree rest = s.ref + 1 + countDup rest
        omega
      show (runRefOps { s with ref := s.ref + 1 } rest).2 = _
      rw [ih { s with ref := s.ref + 1 } hA hB hC]
    | free =>
      have hif : subscription_ref_step s RefOp.free =
          if s.ref - 1 ≠ 0 then ({ s with ref := s.ref - 1 }, ([] : List Ev))
          else ({ s with ref := 0 },
            match s.on_unsubscribe with
            | some cb => [Ev.onUnsub cb s.udata1 s.udata2]
            | none => []) := rfl
      by_cases h1 : s.ref - 1 ≠ 0
      · have hq : subscription_ref_step s RefOp.free =
            ({ s with ref := s.ref - 1 }, ([] : List Ev)) := by
          rw [hif, if_pos h1]
        have hstep2 : (runRefOps s (RefOp.free :: rest)).2 =
            (runRefOps { s with ref := s.ref - 1 } rest).2 := by
          show (subscription_ref_step s RefOp.free).2 ++
              (runRefOps (subscription_ref_step s RefOp.free).1 rest).2 = _
          rw [hq]
          exact List.nil_append _
        have hA : 0 < ({ s with ref := s.ref - 1 } : SubRec).ref := by
          show 0 < s.ref - 1
          omega
        have hB : ∀ n, n < rest.length → countFree (rest.take n) <
            ({ s with ref := s.ref - 1 } : SubRec).ref + countDup (rest.take n) := by
          intro n hn
          have h2 := hpre (n + 1) (Nat.succ_lt_succ hn)
          simp only [List.take_succ_cons, countFree, countDup] at h2
          show countFree (rest.take n) < s.ref - 1 + countDup (rest.take n)
          omega
        have hC : countFree rest =
            ({ s with ref := s.ref - 1 } : SubRec).ref + countDup rest := by
          simp only [countFree, countDup] at htot
          show countFree rest = s.ref - 1 + countDup rest
          omega
        rw [hstep2]
        exact ih { s with ref := s.ref - 1 } hA hB hC
      · have h0 : s.ref - 1 = 0 := not_not.mp h1
        cases rest with
        | nil =>
          show (subscription_ref_step s RefOp.free).2 ++ ([] : List Ev) = _
          rw [hif, if_neg h1]
          exact List.append_nil _
        | cons op2 rest2 =>
          exfalso
          have h2 := hpre 1 (by simp only [List.length_cons]; omega)
          simp only [List.take_succ_cons, List.take_zero, countFree, countDup] at h2
          omega

/-- C3: a successful subscribe that supplied an `on_unsubscribe` callback
installs a subscription with reference count 1 carrying that callback and
the caller's `udata1`/`udata2`; along any balanced run of reference
operations — every message delivery duplicates and later releases the
reference, and the final unsubscribe contributes the one extra release,
so that releases stay below acquires-plus-one on every proper prefix and
match acquires-plus-one in total — exactly one `on_unsubscribe` event is
emitted, with the subscribe-time `udata1` and `udata2`. -/
theorem on_unsubscribe_exactly_once (po : Postoffice) (args : SubscribeArgs)
    (po2 : Postoffice) (sid : Nat) (evs : List Ev) (cb : Nat)
    (h : subscription_create po args = (po2, some sid, evs))
    (hcb : args.on_unsubscribe = some cb) (ops : List RefOp)
    (hpre : ∀ n, n < ops.length →
      countFree (ops.take n) < 1 + countDup (ops.take n))
    (htot : countFree ops = 1 + countDup ops) :
    ∃ s, subsFind po2.subs sid = some s ∧
      (runRefOps s ops).2 = [Ev.onUnsub cb args.udata1 args.udata2] := by
  obtain ⟨s, hfind, href, hunsub, hu1, hu2⟩ := subscription_create_some h
  refine ⟨s, hfind, ?_⟩
  rw [runRefOps_balanced ops s (by omega) (by rw [href]; exact hpre)
    (by rw [href]; exact htot)]
  rw [hunsub, hcb, hu1, hu2]

/-- Witness for C3: subscribe to channel "c" with `on_unsubscribe` 42 and
user data (5, 6); one delivery (dup then free) followed by the
unsubscribe free yields exactly one `onUnsub 42 5 6` event. -/
theorem on_unsubscribe_exactly_once_witness :
    (subscription_create postoffice_init
        ⟨0, some (FioId.str [99]), none, some 1, some 42, 5, 6⟩ =
      ((subscription_create postoffice_init
          ⟨0, some (FioId.str [99]), none, some 1, some 42, 5, 6⟩).1, some 0,
        (subscription_create postoffice_init
          ⟨0, some (FioId.str [99]), none, some 1, some 42, 5, 6⟩).2.2)) ∧
    ((⟨0, some (FioId.str [99]), none, some 1, some 42, 5, 6⟩ :
        SubscribeArgs).on_unsubscribe = some 42) ∧
    (∀ n, n < ([RefOp.dup, RefOp.free, RefOp.free]).length →
      countFree (([RefOp.dup, RefOp.free, RefOp.free]).take n) <
        1 + countDup (([RefOp.dup, RefOp.free, RefOp.free]).take n)) ∧
    (countFree [RefOp.dup, RefOp.free, RefOp.free] =
      1 + countDup [RefOp.dup, RefOp.free, RefOp.free]) ∧
    ∃ s, subsFind (subscription_create postoffice_init
        ⟨0, some (FioId.str [99]), none, some 1, some 42, 5, 6⟩).1.subs 0 = some s ∧
      (runRefOps s [RefOp.dup, RefOp.free, RefOp.free]).2 = [Ev.onUnsub 42 5 6] :=
  ⟨by decide, rfl, by decide, by decide,
    on_unsubscribe_exactly_once postoffice_init
      ⟨0, some (FioId.str [99]), none, some 1, some 42, 5, 6⟩
      (subscription_create postoffice_init
        ⟨0, some (FioId.str [99]), none, some 1, some 42, 5, 6⟩).1 0
      (subscription_create postoffice_init
        ⟨0, some (FioId.str [99]), none, some 1, some 42, 5, 6⟩).2.2 42
      (by decide) rfl [RefOp.dup, RefOp.free, RefOp.free] (by decide) (by decide)⟩

/-! ## Theorems: the metadata producer registry -/

theorem fio_ary_remove2_not_mem (l : List Nat) (cb : Nat) (h : cb ∉ l) :
    fio_ary_remove2 l cb = l := by
  induction l with
  | nil => rfl
  | cons x rest ih =>
    simp only [List.mem_cons, not_or] at h
    unfold fio_ary_remove2
    rw [if_neg (fun hx => h.1 hx.symm), ih h.2]

theorem fio_ary_remove2_sublist (l : List Nat) (cb : Nat) :
    List.Sublist (fio_ary_remove2 l cb) l := by
  induction l with
  | nil => exact List.Sublist.refl _
  | cons x rest ih =>
    unfold fio_ary_remove2
    by_cases hx : x = cb
    · rw [if_pos hx]
      exact List.sublist_cons_self x rest
    · rw [if_neg hx]
      exact List.Sublist.cons₂ x ih

theorem not_mem_fio_ary_remove2 (l : List Nat) (cb : Nat) (h : l.Nodup) :
    cb ∉ fio_ary_remove2 l cb := by
  induction l with
  | nil => simp [fio_ary_remove2]
  | cons x rest ih =>
    rw [List.nodup_cons] at h
    unfold fio_ary_remove2
    by_cases hx : x = cb
    · rw [if_pos hx]
      subst hx
      exact h.1
    · rw [if_neg hx]
      simp only [List.mem_cons, not_or]
      exact ⟨fun hc => hx hc.symm, ih h.2⟩

theorem fio_ary_remove2_append_self (l : List Nat) (cb : Nat) (h : cb ∉ l) :
    fio_ary_remove2 (l ++ [cb]) cb = l := by
  induction l with
  | nil => simp [fio_ary_remove2]
  | cons x rest ih =>
    simp only [List.mem_cons, not_or] at h
    simp only [List.cons_append]
    unfold fio_ary_remove2
    rw [if_neg (fun hx => h.1 hx.symm), ih h.2]

/-- C10: on a duplicate-free registry (the only kind reachable from the
empty one), `facil_message_metadata_set` keeps the registry
duplicate-free; enabling a producer leaves exactly one registration of
it; disabling leaves none; removal is a no-op when the producer is
absent; and each (producer, enable) call is idempotent. -/
theorem metadata_registry_set (l : List Nat) (cb : Nat) (e : Bool) (hl : l.Nodup) :
    (facil_message_metadata_set l cb e).Nodup ∧
    (facil_message_metadata_set l cb true).count cb = 1 ∧
    (facil_message_metadata_set l cb false).count cb = 0 ∧
    (cb ∉ l → fio_ary_remove2 l cb = l) ∧
    facil_message_metadata_set (facil_message_metadata_set l cb e) cb e =
      facil_message_metadata_set l cb e := by
  have hrm : (fio_ary_remove2 l cb).Nodup :=
    (fio_ary_remove2_sublist l cb).nodup hl
  have hnm := not_mem_fio_ary_remove2 l cb hl
  refine ⟨?_, ?_, ?_, fio_ary_remove2_not_mem l cb, ?_⟩
  · cases e with
    | false => exact hrm
    | true =>
      show (fio_ary_remove2 l cb ++ [cb]).Nodup
      rw [List.nodup_append]
      refine ⟨hrm, List.nodup_singleton cb, ?_⟩
      intro a ha hb
      rw [List.mem_singleton] at hb
      subst hb
      exact hnm ha
  · show (fio_ary_remove2 l cb ++ [cb]).count cb = 1
    rw [List.count_append, List.count_eq_zero.mpr hnm]
    simp
  · show (fio_ary_remove2 l cb).count cb = 0
    exact List.count_eq_zero.mpr hnm
  · cases e with
    | false =>
      show fio_ary_remove2 (fio_ary_remove2 l cb) cb = fio_ary_remove2 l cb
      exact fio_ary_remove2_not_mem _ cb hnm
    | true =>
      show fio_ary_remove2 (fio_ary_remove2 l cb ++ [cb]) cb ++ [cb] =
        fio_ary_remove2 l cb ++ [cb]
      rw [fio_ary_remove2_append_self _ cb hnm]

/-- Witness for C10 on the registry [3, 7] with producer 7. -/
theorem metadata_registry_set_witness :
    ([3, 7] : List Nat).Nodup ∧
    ((facil_message_metadata_set [3, 7] 7 true).Nodup ∧
      (facil_message_metadata_set [3, 7] 7 true).count 7 = 1 ∧
      (facil_message_metadata_set [3, 7] 7 false).count 7 = 0 ∧
      ((7 : Nat) ∉ ([3, 7] : List Nat) → fio_ary_remove2 [3, 7] 7 = [3, 7]) ∧
      facil_message_metadata_set (facil_message_metadata_set [3, 7] 7 true) 7 true =
        facil_message_metadata_set [3, 7] 7 true) :=
  ⟨by decide, metadata_registry_set [3, 7] 7 true (by decide)⟩

end Facil
